import Mathlib

/-!
Shallow embedding of the PDF-extraction core of the thesis-formatter
repository (src/scripts/extract_pdf.py) and verification of the frozen
claims about it.

Conventions of the embedding:
* Python strings are Lean `String`s; all primitive operations
  (strip, split, join, regex tests) are implemented on the underlying
  `List Char`, matching CPython semantics on the character sets this
  program processes.  Python's `\d` and `\w` regex classes are modelled
  as ASCII digits and ASCII alphanumerics / underscore / CJK ideographs:
  the program only handles Latin, Greek-math and CJK text, where the
  two agree.
* Python floats (bounding-box coordinates) are modelled as `ℚ`.
* The external collaborators (PyMuPDF page parsing, image byte
  extraction, the filesystem) are modelled as explicit input data and
  oracle functions; an exception raised by a collaborator call is a
  `none` / `false` result.
-/

namespace ExtractPdf

/-- Whitespace characters recognised by Python str.strip and str.split. -/
def pyIsWs (c : Char) : Bool :=
  c = ' ' || c = '\t' || c = '\n' || c = '\r' || c = '\x0b' || c = '\x0c'

/-- Python str.strip(): drop leading and trailing whitespace. -/
def pyStrip (s : String) : String :=
  ⟨((s.toList.dropWhile pyIsWs).reverse.dropWhile pyIsWs).reverse⟩

/-- Accumulator-based splitting on whitespace runs (Python str.split()). -/
def pySplitWsAux (cur : List Char) : List Char → List (List Char)
  | [] => if cur.isEmpty then [] else [cur.reverse]
  | c :: rest =>
    if pyIsWs c then
      if cur.isEmpty then pySplitWsAux [] rest
      else cur.reverse :: pySplitWsAux [] rest
    else pySplitWsAux (c :: cur) rest

/-- Python str.split() with no separator: whitespace-separated tokens. -/
def pySplitWs (s : String) : List String :=
  (pySplitWsAux [] s.toList).map (fun t => ⟨t⟩)

/-- Prepend a character to the first line of a line list. -/
def consHeadLine (c : Char) (ls : List (List Char)) : List (List Char) :=
  match ls with
  | [] => [[c]]
  | h :: t => (c :: h) :: t

/-- Splitting a character list at newline characters (Python str.split with sep set to a newline). -/
def splitNl : List Char → List (List Char)
  | [] => [[]]
  | c :: rest => if c = '\n' then [] :: splitNl rest else consHeadLine c (splitNl rest)

/-- Joining lines with newline characters (Python str.join on a newline). -/
def joinNl : List (List Char) → List Char
  | [] => []
  | [l] => l
  | l :: l2 :: rest => l ++ '\n' :: joinNl (l2 :: rest)

/-- Line splitting lifted to `String`. -/
def splitLines (s : String) : List String :=
  (splitNl s.toList).map (fun cs => ⟨cs⟩)

/-- Line joining lifted to `String`. -/
def joinLinesStr (ls : List String) : String :=
  ⟨joinNl (ls.map String.toList)⟩

/-- Test whether a string starts with the given prefix string. -/
def startsWithStr (s pre : String) : Bool :=
  pre.toList.isPrefixOf s.toList

/-- Test whether a string ends with the given suffix string. -/
def endsWithStr (s suf : String) : Bool :=
  suf.toList.isSuffixOf s.toList

/-- The literal UNICODE_MATH_CHARS set of the source (174 characters). -/
def UNICODE_MATH_CHARS : List Char :=
  ("𝛼𝛽𝛾𝛿𝜀𝜁𝜂𝜃𝜄𝜅𝜆𝜇𝜈𝜉𝜊𝜋𝜌𝜎𝜏𝜐𝜑𝜒𝜓𝜔"
   ++ "𝛢𝛣𝛤𝛥𝛦𝛧𝛨𝛩𝛪𝛫𝛬𝛭𝛮𝛯𝛰𝛱𝛲𝛳𝛴𝛵𝛶𝛷𝛸𝛹𝛺"
   ++ "𝑎𝑏𝑐𝑑𝑒𝑓𝑔ℎ𝑖𝑗𝑘𝑙𝑚𝑛𝑜𝑝𝑞𝑟𝑠𝑡𝑢𝑣𝑤𝑥𝑦𝑧"
   ++ "𝐴𝐵𝐶𝐷𝐸𝐹𝐺𝐻𝐼𝐽𝐾𝐿𝑀𝑁𝑂𝑃𝑄𝑅𝑆𝑇𝑈𝑉𝑊𝑋𝑌𝑍"
   ++ "⁰¹²³⁴⁵⁶⁷⁸⁹⁺⁻⁼⁽⁾ⁿⁱ₀₁₂₃₄₅₆₇₈₉₊₋₌₍₎"
   ++ "∑∏∫∬∭∮∯∰∇∂∆∀∃∈∉⊂⊃⊆⊇∪∩∧∨¬⊕⊗⊙"
   ++ "≤≥≠≈≡≢∝∞±×÷√∛∜").toList

/-- The "strong" operator characters tested by has_math_symbol. -/
def strongMathChars : List Char := "∑∏∫∂∇=±×÷".toList

/-- Character range of the math-italic lower-case letters (the regex range from the small math a to the small math z). -/
def isMathLower (c : Char) : Bool :=
  0x1d44e ≤ c.toNat && c.toNat ≤ 0x1d467

/-- Character range of the math-italic upper-case letters (the regex range from the capital math A to the capital math Z). -/
def isMathUpper (c : Char) : Bool :=
  0x1d434 ≤ c.toNat && c.toNat ≤ 0x1d44d

/-- is_formula_line from the source: heuristic one-line formula classifier. -/
def is_formula_line (line : String) : Bool :=
  let stripped := pyStrip line
  let cs := stripped.toList
  if cs.isEmpty then false
  else
    let mathCount := cs.countP (fun c => UNICODE_MATH_CHARS.contains c)
    let hasMathSymbol := strongMathChars.any (fun c => cs.contains c)
    let hasSignificantMath := decide (2 ≤ mathCount)
    let isShortMath := decide (cs.length ≤ 10) && decide (1 ≤ mathCount)
    let isFormulaPart :=
      match cs with
      | a :: b :: _ => (isMathLower a || isMathUpper a || a.isAlpha) && b = '='
      | _ => false
    let isSubscriptPart :=
      match cs with
      | a :: b :: d :: _ =>
        (a = '𝑖' || a = '𝑗' || a = '𝑘' || a = 'i' || a = 'j' || a = 'k')
          && b = '=' && d.isDigit
      | _ => false
    hasMathSymbol || hasSignificantMath || isShortMath || isFormulaPart || isSubscriptPart

/-- flush_formula_buffer from the source: emit a buffered formula block. -/
def flush_formula_buffer : List String → List String
  | [] => []
  | [l] => ["[FORMULA: " ++ pyStrip l ++ " :END_FORMULA]"]
  | buffer =>
    let content :=
      String.intercalate " "
        ((buffer.filter (fun l => !(pyStrip l).isEmpty)).map pyStrip)
    ["[FORMULA_BLOCK: " ++ content ++ " :END_FORMULA_BLOCK]"]

/-- Main loop of mark_formulas, processing the line list with the formula buffer. -/
def markFormulasAux (buffer : List String) : List String → List String
  | [] => flush_formula_buffer buffer
  | line :: rest =>
    let stripped := pyStrip line
    if is_formula_line line then
      markFormulasAux (buffer ++ [line]) rest
    else
      if !buffer.isEmpty && startsWithStr stripped "其中"
          && stripped.toList.any (fun c => UNICODE_MATH_CHARS.contains c) then
        markFormulasAux (buffer ++ [line]) rest
      else
        flush_formula_buffer buffer ++ line :: markFormulasAux [] rest

/-- mark_formulas from the source: the Formula Aggregator pass. -/
def mark_formulas (text : String) : String :=
  joinLinesStr (markFormulasAux [] (splitLines text))

/-- Character class of the regex pattern listing digits, comma, dot, dash, plus and percent. -/
def isNumPunctChar (c : Char) : Bool :=
  c.isDigit || c = ',' || c = '.' || c = '-' || c = '+' || c = '%'

/-- Character class of the regex pattern listing digits, comma and dot. -/
def isNumCommaDotChar (c : Char) : Bool :=
  c.isDigit || c = ',' || c = '.'

/-- Full match against the anchored class of digits, comma, dot, dash, plus, percent. -/
def matchesNumPunct (s : String) : Bool :=
  !s.toList.isEmpty && s.toList.all isNumPunctChar

/-- Full match against the anchored class of digits, comma and dot. -/
def matchesNumCommaDot (s : String) : Bool :=
  !s.toList.isEmpty && s.toList.all isNumCommaDotChar

/-- Match for the numbered-section-heading regex: digits, a dot, digits,
whitespace, then at least one more character.  Regex backtracking makes
the tail condition equivalent to: one whitespace character followed by at
least one arbitrary character. -/
def matchesSectionHeading (s : String) : Bool :=
  let cs := s.toList
  let d1 := cs.takeWhile Char.isDigit
  let r1 := cs.dropWhile Char.isDigit
  match r1 with
  | '.' :: r2 =>
    let d2 := r2.takeWhile Char.isDigit
    let r3 := r2.dropWhile Char.isDigit
    (match r3 with
     | c :: _ :: _ => !d1.isEmpty && !d2.isEmpty && pyIsWs c
     | _ => false)
  | _ => false

/-- Match for the numbered-list-item regex: digits, a dot or the Chinese
comma, one whitespace character, then at least five further characters
(regex backtracking lets the whitespace run shrink to one character). -/
def matchesListItem (s : String) : Bool :=
  let cs := s.toList
  let d1 := cs.takeWhile Char.isDigit
  let r1 := cs.dropWhile Char.isDigit
  match r1 with
  | p :: c :: rest =>
    !d1.isEmpty && (p = '.' || p = '、') && pyIsWs c && decide (5 ≤ rest.length)
  | _ => false

/-- CJK ideograph range used by the source's Chinese-text regex. -/
def isCJKChar (c : Char) : Bool :=
  0x4e00 ≤ c.toNat && c.toNat ≤ 0x9fa5

/-- Python word character for the scripts this program processes:
ASCII alphanumerics, underscore, CJK ideographs. -/
def isWordChar (c : Char) : Bool :=
  c.isAlphanum || c = '_' || isCJKChar c

/-- Match for the identifier regex: an ASCII letter followed by at least
one word character or dash, anchored at both ends. -/
def matchesIdentToken (s : String) : Bool :=
  match s.toList with
  | c :: rest => c.isAlpha && !rest.isEmpty && rest.all (fun d => isWordChar d || d = '-')
  | [] => false

/-- Match for the English-phrase regex: an ASCII letter followed by up to
forty letters, whitespace characters or dashes, anchored at both ends. -/
def matchesEnglishPhrase (s : String) : Bool :=
  match s.toList with
  | c :: rest =>
    c.isAlpha && decide (rest.length ≤ 40)
      && rest.all (fun d => d.isAlpha || pyIsWs d || d = '-')
  | [] => false

/-- Match for the percentage regex: digits, commas and dots followed by a
final percent sign. -/
def matchesPercent (s : String) : Bool :=
  match s.toList.reverse with
  | '%' :: body => !body.isEmpty && body.all isNumCommaDotChar
  | _ => false

/-- is_table_cell_candidate from the source: one-line table-cell classifier. -/
def is_table_cell_candidate (line : String) : Bool :=
  let stripped := pyStrip line
  let cs := stripped.toList
  if cs.isEmpty || decide (100 < cs.length) then false
  else if matchesSectionHeading stripped || startsWithStr stripped "第" then false
  else if matchesListItem stripped || startsWithStr stripped "•"
      || startsWithStr stripped "–" then false
  else if matchesNumPunct stripped && decide (1 ≤ cs.length) then true
  else if matchesIdentToken stripped && decide (cs.length ≤ 15) then true
  else if decide (cs.length ≤ 10)
      && !(endsWithStr stripped "。" || endsWithStr stripped "："
           || endsWithStr stripped "；") then true
  else if matchesEnglishPhrase stripped then true
  else if decide (cs.length ≤ 20)
      && (match cs with | c :: _ => isCJKChar c | [] => false) then true
  else if matchesPercent stripped then true
  else false

/-- looks_like_table_sequence from the source: buffer acceptance heuristic. -/
def looks_like_table_sequence (buffer : List String) : Bool :=
  if decide (buffer.length < 4) then false
  else
    let numCount := buffer.countP (fun l => matchesNumPunct (pyStrip l))
    decide (1 ≤ numCount) || decide (4 ≤ buffer.length)

/-- Multi-column-row test of the detector loop: at least three
whitespace-separated parts, one of them purely numeric. -/
def looks_like_multi_col_row (stripped : String) : Bool :=
  let parts := pySplitWs stripped
  decide (3 ≤ parts.length) && parts.any matchesNumCommaDot

/-- End-of-stream acceptance condition of the table detector (source line 222). -/
def eos_accept (buffer : List String) : Bool :=
  decide (2 ≤ buffer.length) && looks_like_table_sequence buffer

/-- Mid-stream acceptance condition of the table detector (source line 204). -/
def mid_accept (buffer : List String) : Bool :=
  looks_like_table_sequence buffer
    || buffer.any (fun l => matchesNumCommaDot (pyStrip l))

/-- Marker block emitted for an accepted table buffer. -/
def tableCellLines (buffer : List String) : List String :=
  "[TABLE_START]" :: buffer.map (fun r => "[TABLE_CELL: " ++ r ++ "]") ++ ["[TABLE_END]"]

/-- Main loop of detect_table_structure: state is the in-table flag and
the line buffer; the third branch looks one line ahead. -/
def detectAux (inTable : Bool) (buffer : List String) : List String → List String
  | [] => if eos_accept buffer then tableCellLines buffer else buffer
  | line :: rest =>
    let stripped := pyStrip line
    if looks_like_multi_col_row stripped then
      detectAux true (buffer ++ [stripped]) rest
    else if is_table_cell_candidate stripped && (inTable || !buffer.isEmpty) then
      detectAux true (buffer ++ [stripped]) rest
    else if is_table_cell_candidate stripped &&
        (match rest with | next :: _ => is_table_cell_candidate next | [] => false) then
      detectAux true (buffer ++ [stripped]) rest
    else
      (if inTable && decide (2 ≤ buffer.length) then
        (if mid_accept buffer then tableCellLines buffer else buffer)
       else buffer)
      ++ line :: detectAux false [] rest

/-- detect_table_structure from the source: the heuristic Table Aggregator. -/
def detect_table_structure (text : String) : String :=
  joinLinesStr (detectAux false [] (splitLines text))

/-- Bounding box with rational coordinates (Python floats modelled as ℚ). -/
structure Rect where
  x0 : ℚ
  y0 : ℚ
  x1 : ℚ
  y1 : ℚ
deriving DecidableEq, Repr

/-- Native table candidate as returned by page.find_tables(): bounding
box, the raw cell grid from table.extract() (cells may be missing), and
the column count. -/
structure RawTable where
  bbox : Rect
  cells : List (List (Option String))
  col_count : Nat
deriving DecidableEq, Repr

/-- Accepted native table after filtering in extract_tables_with_pymupdf. -/
structure TableData where
  bbox : Rect
  rows : List (List (Option String))
  col_count : Nat
deriving DecidableEq, Repr

/-- extract_tables_with_pymupdf from the source.  The argument models the
result of the external page.find_tables() call; `none` models the call
raising, which the source catches, logs and turns into an empty list. -/
def extract_tables_with_pymupdf (found : Option (List RawTable)) : List TableData :=
  match found with
  | none => []
  | some raws =>
    raws.filterMap (fun raw =>
      let rows := raw.cells.filter (fun row =>
        row.any (fun cell =>
          match cell with
          | some s => !(pyStrip s).isEmpty
          | none => false))
      if decide (2 ≤ rows.length) then
        some { bbox := raw.bbox, rows := rows, col_count := raw.col_count }
      else none)

/-- Cell text normalisation of format_table_as_markers: missing cell to
empty string, newlines to spaces, then strip. -/
def tableCellText (cell : Option String) : String :=
  pyStrip ⟨(cell.getD "").toList.map (fun c => if c = '\n' then ' ' else c)⟩

/-- Marker lines emitted for one table row: the row marker followed by
one cell marker per cell. -/
def tableRowLines (idx : Nat) (row : List (Option String)) : List String :=
  ("[TABLE_ROW:" ++ toString idx ++ "]") ::
    row.map (fun cell =>
      let t := tableCellText cell
      if !t.isEmpty then "[TABLE_CELL: " ++ t ++ "]" else "[TABLE_CELL: ]")

/-- Line list built by format_table_as_markers before joining. -/
def format_table_lines (t : TableData) : List String :=
  "[TABLE_START]" :: ((t.rows.enum.map (fun p => tableRowLines p.1 p.2)).flatten ++ ["[TABLE_END]"])

/-- format_table_as_markers from the source: native table to marker text. -/
def format_table_as_markers (t : TableData) : String :=
  joinLinesStr (format_table_lines t)

/-- Content of a page block: a text block carries its lines, each a list
of span texts; an image block carries nothing beyond its bounding box. -/
inductive BlockContent where
  | text (lines : List (List String))
  | image
deriving DecidableEq, Repr

/-- Positioned page block as reported by page.get_text. -/
structure Block where
  bbox : Rect
  content : BlockContent
deriving DecidableEq, Repr

/-- Image descriptor from page.get_image_info: bounding box and xref
handle, with 0 modelling a missing xref (the source reads it with
default 0). -/
structure ImgInfo where
  bbox : Rect
  xref : Int
deriving DecidableEq, Repr

/-- One parsed page as supplied by the external parser.  `found_tables`
models page.find_tables(); `none` models that call raising. -/
structure Page where
  blocks : List Block
  image_info_list : List ImgInfo
  found_tables : Option (List RawTable)
deriving DecidableEq, Repr

/-- Result of doc.extract_image: the raw bytes are irrelevant to the
claims, only the optional extension is kept. -/
structure ImgData where
  ext : Option String
deriving DecidableEq, Repr

/-- Oracles for the external collaborators: extract_image returning
`none` models the call raising, write_ok returning `false` models the
image file write raising.  Both exceptions are caught by the same
handler in the source. -/
structure DocOracle where
  extract_image : Int → Option ImgData
  write_ok : String → Bool

/-- Document-level figure record appended on successful extraction. -/
structure FigureRecord where
  id : String
  filename : String
  page : Nat
  bbox : Rect
deriving DecidableEq, Repr

/-- Pipeline state threaded through the page loop: the growing annotated
text, the figure records, the monotonic image counter, and a ghost trace
`ids` recording the counter value used for each emitted pdfimg id (the
source interpolates exactly this value into the id string). -/
structure PState where
  text : String
  images : List FigureRecord
  counter : Nat
  ids : List Nat
deriving DecidableEq, Repr

/-- Vertical center of a bounding box, used for descriptor indexing and
for block matching alike. -/
def centerY (r : Rect) : ℚ := (r.y0 + r.y1) / 2

/-- Python abs on rationals. -/
def myAbs (q : ℚ) : ℚ := if q < 0 then -q else q

/-- Python dict assignment on the center-keyed image map: overwriting an
existing key keeps its position, a new key is appended. -/
def insertKey (m : List (ℚ × ImgInfo)) (k : ℚ) (v : ImgInfo) : List (ℚ × ImgInfo) :=
  if m.any (fun p => decide (p.1 = k)) then
    m.map (fun p => if p.1 = k then (k, v) else p)
  else m ++ [(k, v)]

/-- The image_map construction of the source: descriptors indexed by the
vertical center of their bounding box. -/
def build_image_map (infos : List ImgInfo) : List (ℚ × ImgInfo) :=
  infos.foldl (fun m info => insertKey m (centerY info.bbox) info) []

/-- Proximity-search loop over the image map: running minimum distance
(`none` is the initial infinity) and current best match. -/
def findMatchAux (c : ℚ) : Option ℚ → Option ImgInfo → List (ℚ × ImgInfo) → Option ImgInfo
  | _, cur, [] => cur
  | best, cur, (cy, info) :: rest =>
    let d := myAbs (cy - c)
    let better := match best with | none => true | some md => decide (d < md)
    if better && decide (d < 50) then findMatchAux c (some d) (some info) rest
    else findMatchAux c best cur rest

/-- Nearest-descriptor search with the 50-unit tolerance, as in the source. -/
def findMatch (m : List (ℚ × ImgInfo)) (c : ℚ) : Option ImgInfo :=
  findMatchAux c none none m

/-- os.path.join for a directory and a relative file name. -/
def pathJoin (dir fname : String) : String := dir ++ "/" ++ fname

/-- Image-block handling of the source: assign the next id, search the
map, then extract and write under the exception handler. -/
def processImageBlock (o : DocOracle) (outputDir : String) (pageNum : Nat)
    (imageMap : List (ℚ × ImgInfo)) (st : PState) (bbox : Rect) : PState :=
  let counter := st.counter + 1
  let imgId := "pdfimg" ++ toString counter
  match findMatch imageMap (centerY bbox) with
  | some m =>
    if 0 < m.xref then
      match o.extract_image m.xref with
      | some imgData =>
        let ext := imgData.ext.getD "png"
        let filename := imgId ++ "." ++ ext
        let imgPath := pathJoin outputDir filename
        if o.write_ok imgPath then
          { text := st.text ++ "\n[FIGURE:" ++ imgId ++ "]\n",
            images := st.images ++
              [{ id := imgId, filename := filename, page := pageNum + 1, bbox := bbox }],
            counter := counter, ids := st.ids ++ [counter] }
        else
          { text := st.text ++ "\n[FIGURE:" ++ imgId ++ ":extraction_failed]\n",
            images := st.images, counter := counter, ids := st.ids ++ [counter] }
      | none =>
        { text := st.text ++ "\n[FIGURE:" ++ imgId ++ ":extraction_failed]\n",
          images := st.images, counter := counter, ids := st.ids ++ [counter] }
    else
      { text := st.text ++ "\n[FIGURE:" ++ imgId ++ ":no_xref]\n",
        images := st.images, counter := counter, ids := st.ids ++ [counter] }
  | none =>
    { text := st.text ++ "\n[FIGURE:" ++ imgId ++ ":no_xref]\n",
      images := st.images, counter := counter, ids := st.ids ++ [counter] }

/-- Text-block rendering: spans of a line concatenated, each line
followed by one newline, appended in order. -/
def render_text_block (ls : List (List String)) : String :=
  ls.foldl (fun acc spans => acc ++ String.join spans ++ "\n") ""

/-- Dispatch on the block type, as in the source loop over sorted blocks. -/
def processBlock (o : DocOracle) (outputDir : String) (pageNum : Nat)
    (imageMap : List (ℚ × ImgInfo)) (st : PState) (b : Block) : PState :=
  match b.content with
  | BlockContent.text ls => { st with text := st.text ++ render_text_block ls }
  | BlockContent.image => processImageBlock o outputDir pageNum imageMap st b.bbox

/-- Stable insertion for the sort modelling Python sorted: an element is
placed after every element whose key is less than or equal to its own. -/
def insertAsc {α : Type} (key : α → ℚ) (x : α) : List α → List α
  | [] => [x]
  | y :: ys => if key y ≤ key x then y :: insertAsc key x ys else x :: y :: ys

/-- Python sorted with a rational key: stable, ascending. -/
def pySortByKey {α : Type} (key : α → ℚ) (l : List α) : List α :=
  l.foldl (fun acc x => insertAsc key x acc) []

/-- Per-page processing: native tables, descriptor map, blocks sorted by
top edge and folded through processBlock, then native table markers in
ascending vertical order. -/
def processPage (o : DocOracle) (outputDir : String) (pageNum : Nat)
    (st : PState) (page : Page) : PState :=
  let page_tables := extract_tables_with_pymupdf page.found_tables
  let imageMap := build_image_map page.image_info_list
  let sorted_blocks := pySortByKey (fun b => b.bbox.y0) page.blocks
  let st := sorted_blocks.foldl (processBlock o outputDir pageNum imageMap) st
  (pySortByKey (fun t => t.bbox.y0) page_tables).foldl
    (fun s t => { s with text := s.text ++ "\n" ++ format_table_as_markers t ++ "\n" }) st

/-- Page loop with the page separator inserted between pages but not
after the last one (`total` is the document page count). -/
def processPagesAux (o : DocOracle) (outputDir : String) (total : Nat) :
    Nat → List Page → PState → PState
  | _, [], st => st
  | pageNum, page :: rest, st =>
    let st := processPage o outputDir pageNum st page
    let st := if pageNum < total - 1 then { st with text := st.text ++ "\n\n" } else st
    processPagesAux o outputDir total (pageNum + 1) rest st

/-- Initial pipeline state. -/
def initState : PState := { text := "", images := [], counter := 0, ids := [] }

/-- Raw pipeline state after the page loop, before post-processing. -/
def processDoc (o : DocOracle) (outputDir : String) (doc : List Page) : PState :=
  processPagesAux o outputDir doc.length 0 doc initState

/-- Result object of extract_pdf_with_layout. -/
structure ExtractResult where
  text_with_images : String
  images : List FigureRecord
deriving DecidableEq, Repr

/-- extract_pdf_with_layout from the source: the page loop followed by
the formula and table post-processing passes over the whole text. -/
def extract_pdf_with_layout (o : DocOracle) (outputDir : String) (doc : List Page) :
    ExtractResult :=
  let st := processDoc o outputDir doc
  { text_with_images := detect_table_structure (mark_formulas st.text),
    images := st.images }

/-- Substring test on character lists. -/
def containsSub (hay pat : List Char) : Bool :=
  match hay with
  | [] => pat.isEmpty
  | _ :: t => pat.isPrefixOf hay || containsSub t pat

/-- Table row or cell marker line, by prefix. -/
def startsRowOrCell (l : String) : Bool :=
  startsWithStr l "[TABLE_ROW:" || startsWithStr l "[TABLE_CELL: "

/-- Scanner for the claimed table-marker invariant: outside a span only a
start marker may open one and an end marker is an error; inside a span
every line must be a row or cell marker until the end marker closes it;
the stream must end outside a span. -/
def spanScan : Bool → List String → Bool
  | false, [] => true
  | true, [] => false
  | false, l :: rest =>
    if l = "[TABLE_START]" then spanScan true rest
    else if l = "[TABLE_END]" then false
    else spanScan false rest
  | true, l :: rest =>
    if startsRowOrCell l then spanScan true rest
    else if l = "[TABLE_END]" then spanScan false rest
    else false

/-- A formula marker line must contain no table marker token. -/
def formulaLineTableFree (l : String) : Bool :=
  !(startsWithStr l "[FORMULA") || !(containsSub l.toList "[TABLE_".toList)

/-- The paired-and-never-nested marker invariant claimed by the spec,
as a decidable check on the line list of an annotated text. -/
def claimMarkerInvariant (lines : List String) : Bool :=
  spanScan false lines && lines.all formulaLineTableFree

/-- Count of non-overlapping occurrences of two consecutive newlines,
scanning left to right (Python str.count on a double newline). -/
def countNlNl : List Char → Nat
  | [] => 0
  | [_] => 0
  | c :: d :: rest =>
    if c = '\n' ∧ d = '\n' then countNlNl rest + 1
    else countNlNl (d :: rest)

/-- Example bounding box of an image block with vertical center 100. -/
def exRectA : Rect := { x0 := 0, y0 := 90, x1 := 10, y1 := 110 }

/-- Example bounding box of an image block with vertical center 110. -/
def exRectB : Rect := { x0 := 0, y0 := 100, x1 := 10, y1 := 120 }

/-- Example descriptor with vertical center 100 and extraction handle 7. -/
def exDescr7 : ImgInfo := { bbox := { x0 := 0, y0 := 0, x1 := 10, y1 := 200 }, xref := 7 }

/-- Example descriptor with vertical center 100 and a missing handle. -/
def exDescrNoXref : ImgInfo := { bbox := exRectA, xref := 0 }

/-- Example descriptor with vertical center 100, listed first. -/
def exDescrEarly : ImgInfo := { bbox := { x0 := 0, y0 := 0, x1 := 0, y1 := 200 }, xref := 1 }

/-- Example descriptor with vertical center 100, listed second. -/
def exDescrLate : ImgInfo := { bbox := { x0 := 0, y0 := 50, x1 := 0, y1 := 150 }, xref := 2 }

/-- Example page with two image blocks near one descriptor. -/
def exPageTwoImages : Page :=
  { blocks := [ { bbox := exRectA, content := BlockContent.image },
                { bbox := exRectB, content := BlockContent.image } ],
    image_info_list := [exDescr7], found_tables := some [] }

/-- Example oracle on which extraction succeeds for handle 7 and every
file write succeeds. -/
def exOracleOk : DocOracle :=
  { extract_image := fun x => if x = 7 then some { ext := some "png" } else none,
    write_ok := fun _ => true }

/-- Example oracle on which extraction succeeds for handle 7 but the
write of the first figure file fails. -/
def exOracleFailWrite : DocOracle :=
  { extract_image := fun x => if x = 7 then some { ext := some "png" } else none,
    write_ok := fun p => !(decide (p = "out/pdfimg1.png")) }

/-- Example native table candidate with a math operator inside a cell. -/
def exTableMath : RawTable :=
  { bbox := { x0 := 0, y0 := 0, x1 := 10, y1 := 10 },
    cells := [[some "a×b", some "c"], [some "1", some "2"]], col_count := 2 }

/-- Example page carrying only the native table candidate above. -/
def exPageNativeTable : Page :=
  { blocks := [], image_info_list := [], found_tables := some [exTableMath] }

/-- Example page with one text paragraph and nothing else, each line a
single span. -/
def exTextPage (lines : List String) : Page :=
  { blocks := [ { bbox := { x0 := 0, y0 := 0, x1 := 10, y1 := 10 },
                  content := BlockContent.text (lines.map (fun l => [l])) } ],
    image_info_list := [], found_tables := some [] }

/-- Image-block test on a page block. -/
def isImageBlock (b : Block) : Bool :=
  match b.content with
  | BlockContent.image => true
  | BlockContent.text _ => false

/-- Total number of image blocks of a document. -/
def countImageBlocks (doc : List Page) : Nat :=
  (doc.map (fun p => p.blocks.countP isImageBlock)).sum

/-- Character list of a sequence of newline-terminated lines. -/
def lineBlock : List (List Char) → List Char
  | [] => []
  | l :: rest => l ++ '\n' :: lineBlock rest

theorem toList_mk (cs : List Char) : (⟨cs⟩ : String).toList = cs := rfl

theorem mk_toList (s : String) : (⟨s.toList⟩ : String) = s := rfl

theorem splitNl_ne_nil (cs : List Char) : splitNl cs ≠ [] := by
  cases cs with
  | nil => simp [splitNl]
  | cons c rest =>
    by_cases h : c = '\n'
    · simp [splitNl, h]
    · simp only [splitNl, h, if_false]
      cases hrec : splitNl rest <;> simp [consHeadLine]

theorem joinNl_splitNl (cs : List Char) : joinNl (splitNl cs) = cs := by
  induction cs with
  | nil => rfl
  | cons c rest ih =>
    by_cases h : c = '\n'
    · subst h
      obtain ⟨h1, t1, he⟩ := List.exists_cons_of_ne_nil (splitNl_ne_nil rest)
      rw [he] at ih
      simp only [splitNl, if_pos rfl, he, joinNl, ih, List.nil_append]
    · obtain ⟨h1, t1, he⟩ := List.exists_cons_of_ne_nil (splitNl_ne_nil rest)
      rw [he] at ih
      simp only [splitNl, h, if_false, he, consHeadLine]
      cases t1 with
      | nil => simp only [joinNl] at ih ⊢; rw [ih]
      | cons l2 t2 => simp only [joinNl] at ih ⊢; rw [List.cons_append, ih]

theorem joinLinesStr_splitLines (s : String) : joinLinesStr (splitLines s) = s := by
  unfold joinLinesStr splitLines
  rw [List.map_map]
  have hcomp : (String.toList ∘ fun cs => (⟨cs⟩ : String)) = id := funext fun cs => rfl
  rw [hcomp, List.map_id, joinNl_splitNl]
  rfl

theorem markFormulasAux_id (lines : List String)
    (h : ∀ l ∈ lines, is_formula_line l = false) :
    markFormulasAux [] lines = lines := by
  induction lines with
  | nil => rfl
  | cons line rest ih =>
    have h1 : is_formula_line line = false := h line (by simp)
    simp only [markFormulasAux, h1, Bool.false_eq_true, if_false, List.isEmpty_nil,
      Bool.not_true, Bool.false_and, flush_formula_buffer, List.nil_append]
    rw [ih (fun l hl => h l (by simp [hl]))]

theorem detectAux_id (lines : List String)
    (h : ∀ l ∈ lines, is_table_cell_candidate (pyStrip l) = false ∧
      looks_like_multi_col_row (pyStrip l) = false) :
    detectAux false [] lines = lines := by
  induction lines with
  | nil => rfl
  | cons line rest ih =>
    obtain ⟨hc, hm⟩ := h line (by simp)
    simp only [detectAux, hm, Bool.false_eq_true, if_false, hc, Bool.false_and,
      Bool.false_and, decide_False, Bool.and_false, List.nil_append]
    rw [ih (fun l hl => h l (by simp [hl]))]

/-- C2 counterexample: mark_formulas is not idempotent.  On the input
consisting of the single line "N = 10" (a formula line by the strong-
operator rule), the first pass emits a FORMULA marker whose text still
contains the equals sign, so the second pass wraps the marker in a
second FORMULA marker instead of leaving the output unchanged. -/
theorem C2_counterexample :
    mark_formulas (mark_formulas "N = 10") ≠ mark_formulas "N = 10" := by decide

/-- C2 (amended): mark_formulas is the identity, and hence idempotent,
exactly on texts none of whose lines is classified as a formula line;
in general a second pass re-wraps any emitted marker line that is
itself classified as a formula line (for instance because its text
retains one of the strong operator characters). -/
theorem C2_theorem (s : String)
    (h : ∀ l ∈ splitLines s, is_formula_line l = false) :
    mark_formulas s = s ∧ mark_formulas (mark_formulas s) = mark_formulas s := by
  have hid : mark_formulas s = s := by
    unfold mark_formulas
    rw [markFormulasAux_id _ h, joinLinesStr_splitLines]
  refine ⟨hid, ?_⟩
  rw [hid]
  exact hid

/-- C2 witness: a concrete formula-free text on which the amended
idempotence theorem applies. -/
theorem C2_witness :
    mark_formulas "hello world\nsecond line" = "hello world\nsecond line" ∧
    mark_formulas (mark_formulas "hello world\nsecond line") =
      mark_formulas "hello world\nsecond line" :=
  C2_theorem "hello world\nsecond line" (by decide)

/-- C3 counterexample: the end-of-stream flush does not apply the same
acceptance rule as a mid-stream flush.  The three buffered lines
CIFAR-10, 92.3, ImageNet contain a purely-numeric line; at end of
stream they are rejected (emitted as plain lines), while the same
buffer followed by a non-matching prose line is accepted and emitted
as a table block. -/
theorem C3_counterexample :
    detect_table_structure "CIFAR-10\n92.3\nImageNet" = "CIFAR-10\n92.3\nImageNet" ∧
    detect_table_structure
        "CIFAR-10\n92.3\nImageNet\nThis is a full prose sentence, with punctuation." =
      "[TABLE_START]\n[TABLE_CELL: CIFAR-10]\n[TABLE_CELL: 92.3]\n[TABLE_CELL: ImageNet]\n[TABLE_END]\nThis is a full prose sentence, with punctuation." :=
  ⟨by decide, by decide⟩

/-- C3 (amended): the two flushes use different acceptance rules.  The
end-of-stream flush accepts a buffer exactly when it has at least four
lines (the numeric-line disjunct inside looks_like_table_sequence is
unreachable below four lines), while the mid-stream flush accepts a
buffer of at least two lines when it has at least four lines or some
line purely of digits, commas and dots; hence buffers of two or three
lines with a purely-numeric line are accepted mid-stream but rejected
at end of stream. -/
theorem C3_theorem (buffer : List String) :
    looks_like_table_sequence buffer = decide (4 ≤ buffer.length) ∧
    eos_accept buffer = decide (4 ≤ buffer.length) ∧
    mid_accept buffer =
      (decide (4 ≤ buffer.length) || buffer.any (fun l => matchesNumCommaDot (pyStrip l))) := by
  have h1 : looks_like_table_sequence buffer = decide (4 ≤ buffer.length) := by
    by_cases h : 4 ≤ buffer.length
    · have hlt : ¬ buffer.length < 4 := by omega
      simp [looks_like_table_sequence, hlt, h]
    · have hlt : buffer.length < 4 := by omega
      simp [looks_like_table_sequence, hlt, h]
  refine ⟨h1, ?_, ?_⟩
  · by_cases h : 4 ≤ buffer.length
    · have h2 : 2 ≤ buffer.length := by omega
      simp [eos_accept, h1, h, h2]
    · simp [eos_accept, h1, h]
  · simp [mid_accept, h1]

/-- C6 counterexample: rejected buffered lines are not emitted
character-for-character.  The lines with surrounding spaces enter the
buffer stripped; after the prose line causes rejection, the output
carries the stripped forms, so the output differs from the input. -/
theorem C6_counterexample :
    detect_table_structure "  A1  \n  B2  \nThis is a full prose sentence, with punctuation." =
      "A1\nB2\nThis is a full prose sentence, with punctuation." ∧
    detect_table_structure "  A1  \n  B2  \nThis is a full prose sentence, with punctuation." ≠
      "  A1  \n  B2  \nThis is a full prose sentence, with punctuation." :=
  ⟨by decide, by decide⟩

/-- C6 (amended): every line entering the table buffer is stored
stripped of leading and trailing whitespace, and a rejected buffer is
emitted exactly as buffered; hence a rejected line is emitted as the
stripped form of the corresponding input line, which is character-for-
character equal to the input only when the input has no surrounding
whitespace. -/
theorem C6_theorem (inTable : Bool) (buffer : List String) (line : String)
    (rest : List String) :
    (looks_like_multi_col_row (pyStrip line) = true →
      detectAux inTable buffer (line :: rest) = detectAux true (buffer ++ [pyStrip line]) rest) ∧
    (looks_like_multi_col_row (pyStrip line) = false →
     is_table_cell_candidate (pyStrip line) = true → (inTable || !buffer.isEmpty) = true →
      detectAux inTable buffer (line :: rest) = detectAux true (buffer ++ [pyStrip line]) rest) ∧
    (looks_like_multi_col_row (pyStrip line) = false →
     is_table_cell_candidate (pyStrip line) = false →
     inTable = true → 2 ≤ buffer.length → mid_accept buffer = false →
      detectAux inTable buffer (line :: rest) = buffer ++ line :: detectAux false [] rest) := by
  refine ⟨?_, ?_, ?_⟩
  · intro hm
    simp [detectAux, hm]
  · intro hm hc hin
    simp [detectAux, hm, hc, hin]
  · intro hm hc hin hlen hacc
    subst hin
    simp [detectAux, hm, hc, hlen, hacc]

/-- C6 witness: concrete instances of the three buffering and rejection
behaviours of the amended theorem. -/
theorem C6_witness :
    detectAux false [] ["1 2 3"] = detectAux true ([] ++ [pyStrip "1 2 3"]) [] ∧
    detectAux true ["A1"] ["  B2  "] = detectAux true (["A1"] ++ [pyStrip "  B2  "]) [] ∧
    detectAux true ["A1", "B2"] ["This is a full prose sentence, with punctuation."] =
      ["A1", "B2"] ++ "This is a full prose sentence, with punctuation." ::
        detectAux false [] [] :=
  ⟨(C6_theorem false [] "1 2 3" []).1 (by decide),
   (C6_theorem true ["A1"] "  B2  " []).2.1 (by decide) (by decide) (by decide),
   (C6_theorem true ["A1", "B2"] "This is a full prose sentence, with punctuation." []).2.2
     (by decide) (by decide) rfl (by decide) (by decide)⟩

theorem findMatchAux_mem (c : ℚ) (l : List (ℚ × ImgInfo)) :
    ∀ (best : Option ℚ) (cur : Option ImgInfo) (m : ImgInfo),
    findMatchAux c best cur l = some m →
    cur = some m ∨ ∃ cy, (cy, m) ∈ l ∧ myAbs (cy - c) < 50 := by
  induction l with
  | nil => intro best cur m h; exact Or.inl h
  | cons p rest ih =>
    intro best cur m h
    obtain ⟨cy, info⟩ := p
    simp only [findMatchAux] at h
    split at h
    case isTrue hcond =>
      have h50 : myAbs (cy - c) < 50 := by
        have := hcond
        simp only [Bool.and_eq_true, decide_eq_true_eq] at this
        exact this.2
      rcases ih _ _ _ h with hcur | ⟨cy2, hmem, hd⟩
      · have hi : info = m := Option.some.inj hcur
        subst hi
        exact Or.inr ⟨cy, List.mem_cons_self _ _, h50⟩
      · exact Or.inr ⟨cy2, List.mem_cons_of_mem _ hmem, hd⟩
    case isFalse hcond =>
      rcases ih _ _ _ h with hcur | ⟨cy2, hmem, hd⟩
      · exact Or.inl hcur
      · exact Or.inr ⟨cy2, List.mem_cons_of_mem _ hmem, hd⟩

theorem findMatch_mem (m : List (ℚ × ImgInfo)) (c : ℚ) (info : ImgInfo)
    (h : findMatch m c = some info) :
    ∃ cy, (cy, info) ∈ m ∧ myAbs (cy - c) < 50 := by
  rcases findMatchAux_mem c m none none info h with hcur | hex
  · cases hcur
  · exact hex

theorem insertKey_mem (m : List (ℚ × ImgInfo)) (k : ℚ) (w : ImgInfo)
    (cy : ℚ) (v : ImgInfo) (h : (cy, v) ∈ insertKey m k w) :
    (cy = k ∧ v = w) ∨ ((cy, v) ∈ m ∧ cy ≠ k) := by
  unfold insertKey at h
  by_cases hany : m.any (fun p => decide (p.1 = k)) = true
  · rw [if_pos hany] at h
    obtain ⟨p, hp, hfp⟩ := List.mem_map.mp h
    by_cases hpk : p.1 = k
    · rw [if_pos hpk] at hfp
      exact Or.inl ⟨(Prod.mk.injEq _ _ _ _ ▸ hfp.symm).1.symm ▸ rfl,
        by cases hfp; rfl⟩
    · rw [if_neg hpk] at hfp
      cases hfp
      exact Or.inr ⟨hp, hpk⟩
  · rw [if_neg hany] at h
    rcases List.mem_append.mp h with hm | hnew
    · have hne : cy ≠ k := by
        intro he
        apply hany
        rw [List.any_eq_true]
        exact ⟨(cy, v), hm, by simp [he]⟩
      exact Or.inr ⟨hm, hne⟩
    · rcases List.mem_singleton.mp hnew with he
      exact Or.inl ⟨congrArg Prod.fst he, congrArg Prod.snd he⟩

theorem build_image_map_aux (infos : List ImgInfo) :
    ∀ (processed : List ImgInfo) (acc : List (ℚ × ImgInfo)),
    (∀ cy v, (cy, v) ∈ acc → centerY v.bbox = cy ∧
      ∃ pre post, processed = pre ++ v :: post ∧ ∀ u ∈ post, centerY u.bbox ≠ cy) →
    ∀ cy v,
      (cy, v) ∈ infos.foldl (fun m info => insertKey m (centerY info.bbox) info) acc →
      centerY v.bbox = cy ∧
      ∃ pre post, processed ++ infos = pre ++ v :: post ∧ ∀ u ∈ post, centerY u.bbox ≠ cy := by
  induction infos with
  | nil =>
    intro processed acc hinv cy v h
    simp only [List.foldl_nil] at h
    simpa using hinv cy v h
  | cons d rest ih =>
    intro processed acc hinv cy v h
    simp only [List.foldl_cons] at h
    have hstep : ∀ cy2 v2, (cy2, v2) ∈ insertKey acc (centerY d.bbox) d →
        centerY v2.bbox = cy2 ∧
        ∃ pre post, processed ++ [d] = pre ++ v2 :: post ∧
          ∀ u ∈ post, centerY u.bbox ≠ cy2 := by
      intro cy2 v2 hmem
      rcases insertKey_mem _ _ _ _ _ hmem with ⟨hk, hv⟩ | ⟨hold, hne⟩
      · subst hv
        exact ⟨hk.symm, processed, [], by simp, by simp⟩
      · obtain ⟨hc2, pre, post, hsplit, hpost⟩ := hinv cy2 v2 hold
        refine ⟨hc2, pre, post ++ [d], by rw [hsplit]; simp, ?_⟩
        intro u hu
        rcases List.mem_append.mp hu with hu1 | hu2
        · exact hpost u hu1
        · rw [List.mem_singleton.mp hu2]
          intro he
          exact hne (he ▸ rfl)
    have := ih (processed ++ [d]) (insertKey acc (centerY d.bbox) d) hstep cy v h
    rwa [List.append_assoc, List.singleton_append] at this

/-- C9: the image map is keyed by vertical center alone and a later
descriptor with the same center overwrites an earlier one, so the
proximity search can only ever return a descriptor that no later
descriptor on the page shares a vertical center with; the earlier of
two equal-center descriptors is never matched. -/
theorem C9_theorem (infos : List ImgInfo) (c : ℚ) (m : ImgInfo)
    (h : findMatch (build_image_map infos) c = some m) :
    ∃ pre post, infos = pre ++ m :: post ∧
      ∀ u ∈ post, centerY u.bbox ≠ centerY m.bbox := by
  obtain ⟨cy, hmem, _⟩ := findMatch_mem _ _ _ h
  have hinv : ∀ cy2 v2, (cy2, v2) ∈ ([] : List (ℚ × ImgInfo)) →
      centerY v2.bbox = cy2 ∧
      ∃ pre post, ([] : List ImgInfo) = pre ++ v2 :: post ∧
        ∀ u ∈ post, centerY u.bbox ≠ cy2 := by
    intro _ _ hmem2
    cases hmem2
  obtain ⟨hcy, pre, post, hsplit, hpost⟩ :=
    build_image_map_aux infos [] [] hinv cy m hmem
  refine ⟨pre, post, by simpa using hsplit, ?_⟩
  intro u hu
  rw [hcy]
  exact hpost u hu

/-- C9 witness: two descriptors share the vertical center 100; the
search at center 100 returns the later one, which has no later
equal-center descriptor after it. -/
theorem C9_witness :
    ∃ pre post, [exDescrEarly, exDescrLate] = pre ++ exDescrLate :: post ∧
      ∀ u ∈ post, centerY u.bbox ≠ centerY exDescrLate.bbox :=
  C9_theorem [exDescrEarly, exDescrLate] 100 exDescrLate (by with_unfolding_all decide)

/-- C10: when the proximity search finds a nearest descriptor within 50
units but its extraction handle is missing or non-positive, the block
emits the no_xref marker and records no FigureRecord — and such a
descriptor did lie within 50 units of the block, so a no_xref marker
does not imply that no descriptor was within range. -/
theorem C10_theorem (o : DocOracle) (outputDir : String) (pageNum : Nat)
    (imageMap : List (ℚ × ImgInfo)) (st : PState) (bbox : Rect) (m : ImgInfo)
    (hfind : findMatch imageMap (centerY bbox) = some m)
    (hxref : m.xref ≤ 0) :
    processImageBlock o outputDir pageNum imageMap st bbox =
      { text := st.text ++ "\n[FIGURE:" ++ ("pdfimg" ++ toString (st.counter + 1))
          ++ ":no_xref]\n",
        images := st.images, counter := st.counter + 1,
        ids := st.ids ++ [st.counter + 1] } ∧
    ∃ cy, (cy, m) ∈ imageMap ∧ myAbs (cy - centerY bbox) < 50 := by
  constructor
  · have hneg : ¬ (0 < m.xref) := not_lt.mpr hxref
    simp [processImageBlock, hfind, hneg]
  · exact findMatch_mem _ _ _ hfind

/-- C10 witness: a descriptor at distance 0 with handle 0 produces the
no_xref marker while lying within the 50-unit tolerance. -/
theorem C10_witness :
    processImageBlock exOracleOk "out" 0 (build_image_map [exDescrNoXref]) initState exRectA =
      { text := initState.text ++ "\n[FIGURE:" ++ ("pdfimg" ++ toString (initState.counter + 1))
          ++ ":no_xref]\n",
        images := initState.images, counter := initState.counter + 1,
        ids := initState.ids ++ [initState.counter + 1] } ∧
    ∃ cy, (cy, exDescrNoXref) ∈ build_image_map [exDescrNoXref] ∧
      myAbs (cy - centerY exRectA) < 50 :=
  C10_theorem exOracleOk "out" 0 (build_image_map [exDescrNoXref]) initState exRectA
    exDescrNoXref (by with_unfolding_all decide) (by decide)

/-- C5 counterexample: a descriptor is not consumed by a match.  On a
page with one descriptor (handle 7, center 100) and two image blocks
with centers 100 and 110, both blocks are matched to that same
descriptor: both figures are successfully extracted through handle 7
and the proximity search returns the same descriptor for both block
centers. -/
theorem C5_counterexample :
    (extract_pdf_with_layout exOracleOk "out" [exPageTwoImages]).text_with_images =
      "\n[FIGURE:pdfimg1]\n\n[FIGURE:pdfimg2]\n" ∧
    (extract_pdf_with_layout exOracleOk "out" [exPageTwoImages]).images.length = 2 ∧
    findMatch (build_image_map [exDescr7]) (centerY exRectA) = some exDescr7 ∧
    findMatch (build_image_map [exDescr7]) (centerY exRectB) = some exDescr7 := by
  refine ⟨by with_unfolding_all decide, by with_unfolding_all decide,
    by with_unfolding_all decide, by with_unfolding_all decide⟩

/-- C5 (amended): matching is a stateless per-block nearest search over
the page's descriptor map; a descriptor matched once stays available,
so a single descriptor within 50 units of two block centers is claimed
by both blocks. -/
theorem C5_theorem (d : ImgInfo) (c1 c2 : ℚ)
    (h1 : myAbs (centerY d.bbox - c1) < 50) (h2 : myAbs (centerY d.bbox - c2) < 50) :
    findMatch (build_image_map [d]) c1 = some d ∧
    findMatch (build_image_map [d]) c2 = some d := by
  constructor
  · simp [findMatch, build_image_map, insertKey, findMatchAux, h1]
  · simp [findMatch, build_image_map, insertKey, findMatchAux, h2]

/-- C5 witness: the single example descriptor is within 50 units of the
block centers 100 and 110 and is matched by both. -/
theorem C5_witness :
    findMatch (build_image_map [exDescr7]) 100 = some exDescr7 ∧
    findMatch (build_image_map [exDescr7]) 110 = some exDescr7 :=
  C5_theorem exDescr7 100 110 (by with_unfolding_all decide) (by with_unfolding_all decide)

/-- C4 counterexample: a failed image write is not propagated as a
fatal error.  With a write oracle that fails on the first figure file,
the pipeline emits the extraction_failed marker for the first figure,
then continues: the second figure on the same page is still extracted,
its marker emitted and its FigureRecord recorded. -/
theorem C4_counterexample :
    (extract_pdf_with_layout exOracleFailWrite "out" [exPageTwoImages]).text_with_images =
      "\n[FIGURE:pdfimg1:extraction_failed]\n\n[FIGURE:pdfimg2]\n" ∧
    (extract_pdf_with_layout exOracleFailWrite "out" [exPageTwoImages]).images =
      [{ id := "pdfimg2", filename := "pdfimg2.png", page := 1, bbox := exRectB }] := by
  refine ⟨by with_unfolding_all decide, by with_unfolding_all decide⟩

/-- C4 (amended): a failed image write is caught by the per-figure
exception handler: the block emits the extraction_failed marker,
records no FigureRecord, advances the figure counter, and processing
continues with the rest of the document. -/
theorem C4_theorem (o : DocOracle) (outputDir : String) (pageNum : Nat)
    (imageMap : List (ℚ × ImgInfo)) (st : PState) (bbox : Rect) (m : ImgInfo)
    (dat : ImgData)
    (hfind : findMatch imageMap (centerY bbox) = some m)
    (hxref : 0 < m.xref)
    (hext : o.extract_image m.xref = some dat)
    (hwrite : o.write_ok (pathJoin outputDir
      ("pdfimg" ++ toString (st.counter + 1) ++ "." ++ dat.ext.getD "png")) = false) :
    processImageBlock o outputDir pageNum imageMap st bbox =
      { text := st.text ++ "\n[FIGURE:" ++ ("pdfimg" ++ toString (st.counter + 1))
          ++ ":extraction_failed]\n",
        images := st.images, counter := st.counter + 1,
        ids := st.ids ++ [st.counter + 1] } := by
  simp [processImageBlock, hfind, hxref, hext, hwrite]

/-- C4 witness: the failing write oracle at the first figure of the
example page triggers the caught-failure path. -/
theorem C4_witness :
    processImageBlock exOracleFailWrite "out" 0 (build_image_map [exDescr7]) initState exRectA =
      { text := initState.text ++ "\n[FIGURE:" ++ ("pdfimg" ++ toString (initState.counter + 1))
          ++ ":extraction_failed]\n",
        images := initState.images, counter := initState.counter + 1,
        ids := initState.ids ++ [initState.counter + 1] } :=
  C4_theorem exOracleFailWrite "out" 0 (build_image_map [exDescr7]) initState exRectA
    exDescr7 { ext := some "png" } (by with_unfolding_all decide) (by decide) (by decide)
    (by decide)

theorem processImageBlock_counter_ids (o : DocOracle) (outputDir : String) (pageNum : Nat)
    (imageMap : List (ℚ × ImgInfo)) (st : PState) (bbox : Rect) :
    (processImageBlock o outputDir pageNum imageMap st bbox).counter = st.counter + 1 ∧
    (processImageBlock o outputDir pageNum imageMap st bbox).ids = st.ids ++ [st.counter + 1] := by
  simp only [processImageBlock]
  repeat' split
  all_goals exact ⟨rfl, rfl⟩

theorem processBlock_counter_ids (o : DocOracle) (outputDir : String) (pageNum : Nat)
    (imageMap : List (ℚ × ImgInfo)) (st : PState) (b : Block) :
    (processBlock o outputDir pageNum imageMap st b).counter
      = st.counter + (if isImageBlock b then 1 else 0) ∧
    (processBlock o outputDir pageNum imageMap st b).ids
      = st.ids ++ (if isImageBlock b then [st.counter + 1] else []) := by
  obtain ⟨bbox, content⟩ := b
  cases content with
  | text ls => simp [processBlock, isImageBlock]
  | image =>
    simp only [processBlock, isImageBlock, if_pos]
    exact processImageBlock_counter_ids o outputDir pageNum imageMap st bbox

theorem foldBlocks_counter_ids (o : DocOracle) (outputDir : String) (pageNum : Nat)
    (imageMap : List (ℚ × ImgInfo)) (blocks : List Block) :
    ∀ st : PState,
    (blocks.foldl (processBlock o outputDir pageNum imageMap) st).counter
      = st.counter + blocks.countP isImageBlock ∧
    (blocks.foldl (processBlock o outputDir pageNum imageMap) st).ids
      = st.ids ++ List.range' (st.counter + 1) (blocks.countP isImageBlock) := by
  induction blocks with
  | nil => intro st; simp
  | cons b rest ih =>
    intro st
    obtain ⟨hc, hi⟩ := processBlock_counter_ids o outputDir pageNum imageMap st b
    obtain ⟨hc2, hi2⟩ := ih (processBlock o outputDir pageNum imageMap st b)
    simp only [List.foldl_cons] at *
    cases hb : isImageBlock b
    · rw [hb] at hc hi
      simp only [Bool.false_eq_true, if_false, Nat.add_zero, List.append_nil] at hc hi
      constructor
      · rw [hc2, hc, List.countP_cons, hb]
        simp
      · rw [hi2, hc, hi, List.countP_cons, hb]
        simp
    · have hcT : (processBlock o outputDir pageNum imageMap st b).counter = st.counter + 1 := by
        rw [hc, hb]; simp
      have hiT : (processBlock o outputDir pageNum imageMap st b).ids
          = st.ids ++ [st.counter + 1] := by
        rw [hi, hb]; simp
      have hcount : (b :: rest).countP isImageBlock = rest.countP isImageBlock + 1 := by
        rw [List.countP_cons, hb]; simp
      constructor
      · rw [hc2, hcT, hcount]
        omega
      · rw [hi2, hcT, hiT, hcount]
        have hr : List.range' (st.counter + 1) (rest.countP isImageBlock + 1)
            = (st.counter + 1) :: List.range' (st.counter + 1 + 1) (rest.countP isImageBlock) :=
          List.range'_succ (st.counter + 1) (rest.countP isImageBlock) 1
        rw [hr, List.append_assoc, List.singleton_append]

theorem insertAsc_perm {α : Type} (key : α → ℚ) (x : α) (l : List α) :
    List.Perm (insertAsc key x l) (x :: l) := by
  induction l with
  | nil => exact List.Perm.refl _
  | cons y ys ih =>
    simp only [insertAsc]
    split
    · exact (ih.cons y).trans (List.Perm.swap x y ys)
    · exact List.Perm.refl _

theorem pySortByKey_perm_aux {α : Type} (key : α → ℚ) (l : List α) :
    ∀ acc : List α,
    List.Perm (l.foldl (fun a x => insertAsc key x a) acc) (acc ++ l) := by
  induction l with
  | nil => intro acc; simp
  | cons x xs ih =>
    intro acc
    simp only [List.foldl_cons]
    refine (ih (insertAsc key x acc)).trans ?_
    refine (List.Perm.append_right xs (insertAsc_perm key x acc)).trans ?_
    exact List.perm_middle.symm

theorem pySortByKey_perm {α : Type} (key : α → ℚ) (l : List α) :
    List.Perm (pySortByKey key l) l := by
  simpa using pySortByKey_perm_aux key l []

theorem tableFold_counter_ids (tables : List TableData) :
    ∀ st : PState,
    ((tables.foldl
      (fun s t => { s with text := s.text ++ "\n" ++ format_table_as_markers t ++ "\n" }) st).counter
        = st.counter) ∧
    ((tables.foldl
      (fun s t => { s with text := s.text ++ "\n" ++ format_table_as_markers t ++ "\n" }) st).ids
        = st.ids) := by
  induction tables with
  | nil => intro st; exact ⟨rfl, rfl⟩
  | cons t rest ih =>
    intro st
    simp only [List.foldl_cons]
    exact ih _

theorem processPage_counter_ids (o : DocOracle) (outputDir : String) (pageNum : Nat)
    (st : PState) (page : Page) :
    (processPage o outputDir pageNum st page).counter
      = st.counter + page.blocks.countP isImageBlock ∧
    (processPage o outputDir pageNum st page).ids
      = st.ids ++ List.range' (st.counter + 1) (page.blocks.countP isImageBlock) := by
  unfold processPage
  have hsort : (pySortByKey (fun b => b.bbox.y0) page.blocks).countP isImageBlock
      = page.blocks.countP isImageBlock :=
    (pySortByKey_perm (fun b => b.bbox.y0) page.blocks).countP_eq isImageBlock
  obtain ⟨hc, hi⟩ := foldBlocks_counter_ids o outputDir pageNum
    (build_image_map page.image_info_list) (pySortByKey (fun b => b.bbox.y0) page.blocks) st
  obtain ⟨htc, hti⟩ := tableFold_counter_ids
    (pySortByKey (fun t => t.bbox.y0) (extract_tables_with_pymupdf page.found_tables))
    ((pySortByKey (fun b => b.bbox.y0) page.blocks).foldl
      (processBlock o outputDir pageNum (build_image_map page.image_info_list)) st)
  rw [htc, hti, hc, hi, hsort]
  exact ⟨rfl, rfl⟩

theorem processPagesAux_counter_ids (o : DocOracle) (outputDir : String) (total : Nat)
    (pages : List Page) :
    ∀ (pageNum : Nat) (st : PState),
    (processPagesAux o outputDir total pageNum pages st).counter
      = st.counter + (pages.map (fun p => p.blocks.countP isImageBlock)).sum ∧
    (processPagesAux o outputDir total pageNum pages st).ids
      = st.ids ++ List.range' (st.counter + 1)
          ((pages.map (fun p => p.blocks.countP isImageBlock)).sum) := by
  induction pages with
  | nil => intro pageNum st; simp [processPagesAux]
  | cons p rest ih =>
    intro pageNum st
    simp only [processPagesAux]
    obtain ⟨hc, hi⟩ := processPage_counter_ids o outputDir pageNum st p
    set st1 := processPage o outputDir pageNum st p with hst1
    set st2 := if pageNum < total - 1 then { st1 with text := st1.text ++ "\n\n" } else st1
      with hst2
    have hc2 : st2.counter = st1.counter := by
      rw [hst2]; split <;> rfl
    have hi2 : st2.ids = st1.ids := by
      rw [hst2]; split <;> rfl
    obtain ⟨hrc, hri⟩ := ih (pageNum + 1) st2
    constructor
    · rw [hrc, hc2, hc, List.map_cons, List.sum_cons]
      omega
    · rw [hri, hc2, hi2, hc, hi, List.map_cons, List.sum_cons, List.append_assoc]
      have h1 : st.counter + p.blocks.countP isImageBlock + 1
          = st.counter + 1 + p.blocks.countP isImageBlock := by omega
      rw [h1, List.range'_append_1]
      have h2 : (rest.map (fun p => p.blocks.countP isImageBlock)).sum
            + p.blocks.countP isImageBlock
          = p.blocks.countP isImageBlock
            + (rest.map (fun p => p.blocks.countP isImageBlock)).sum := by omega
      rw [h2]

/-- C7: figure ids are unique and strictly increasing across the whole
document: the sequence of pdfimg numbers assigned to image blocks in
emission order (including no_xref and extraction_failed blocks, which
also consume an id) is exactly 1, 2, ..., K where K is the total number
of image blocks, with no repetition and no reset at page boundaries;
the final counter equals K. -/
theorem C7_theorem (o : DocOracle) (outputDir : String) (doc : List Page) :
    (processDoc o outputDir doc).ids = List.range' 1 (countImageBlocks doc) ∧
    (processDoc o outputDir doc).counter = countImageBlocks doc := by
  obtain ⟨hc, hi⟩ := processPagesAux_counter_ids o outputDir doc.length doc 0 initState
  unfold processDoc countImageBlocks
  rw [hi, hc]
  constructor
  · simp [initState]
  · simp [initState]

theorem toList_append (a b : String) : (a ++ b).toList = a.toList ++ b.toList := rfl

theorem startsWithStr_append2 (pre s r : String) :
    startsWithStr (pre ++ s ++ r) pre = true := by
  unfold startsWithStr
  rw [toList_append, toList_append, List.append_assoc]
  exact List.isPrefixOf_iff_prefix.mpr (List.prefix_append _ _)

theorem rowLine_not_formula (t : String) :
    startsWithStr ("[TABLE_ROW:" ++ t ++ "]") "[FORMULA" = false := rfl

theorem cellLine_not_formula (t : String) :
    startsWithStr ("[TABLE_CELL: " ++ t ++ "]") "[FORMULA" = false := rfl

theorem tableRowLines_shape (idx : Nat) (row : List (Option String)) :
    ∀ l ∈ tableRowLines idx row,
      startsRowOrCell l = true ∧ startsWithStr l "[FORMULA" = false := by
  intro l hl
  simp only [tableRowLines, List.mem_cons, List.mem_map] at hl
  rcases hl with hrow | ⟨cell, _, hcell⟩
  · subst hrow
    constructor
    · unfold startsRowOrCell
      rw [startsWithStr_append2]
      rfl
    · exact rowLine_not_formula _
  · by_cases hne : !(tableCellText cell).isEmpty
    · rw [if_pos hne] at hcell
      subst hcell
      constructor
      · unfold startsRowOrCell
        rw [startsWithStr_append2]
        simp
      · exact cellLine_not_formula _
    · rw [if_neg hne] at hcell
      subst hcell
      exact ⟨by decide, by decide⟩

theorem format_interior_shape (rows : List (List (Option String))) :
    ∀ k, ∀ l ∈ ((rows.enumFrom k).map (fun p => tableRowLines p.1 p.2)).flatten,
      startsRowOrCell l = true ∧ startsWithStr l "[FORMULA" = false := by
  induction rows with
  | nil => intro k l hl; simp at hl
  | cons r rest ih =>
    intro k l hl
    simp only [List.enumFrom_cons, List.map_cons, List.flatten_cons, List.mem_append] at hl
    rcases hl with h1 | h2
    · exact tableRowLines_shape k r l h1
    · exact ih (k + 1) l (by simpa using h2)

theorem spanScan_inside (mid : List String) (h : ∀ l ∈ mid, startsRowOrCell l = true) :
    spanScan true (mid ++ ["[TABLE_END]"]) = true := by
  induction mid with
  | nil => decide
  | cons l rest ih =>
    have h1 := h l (by simp)
    simp only [List.cons_append, spanScan, h1, if_true]
    exact ih (fun x hx => h x (by simp [hx]))

/-- C1 counterexample: the paired-and-never-nested marker invariant
fails on the full pipeline.  A native table whose first cell contains
the multiplication sign is formatted into table marker lines; the whole
text is then passed through mark_formulas, which classifies the line
"[TABLE_CELL: a×b]" as a formula line and wraps it in a FORMULA marker
inside the TABLE_START/TABLE_END span. -/
theorem C1_counterexample :
    claimMarkerInvariant (splitLines
      (extract_pdf_with_layout exOracleOk "out" [exPageNativeTable]).text_with_images) = false ∧
    (extract_pdf_with_layout exOracleOk "out" [exPageNativeTable]).text_with_images =
      "\n[TABLE_START]\n[TABLE_ROW:0]\n[FORMULA: [TABLE_CELL: a×b] :END_FORMULA]\n[TABLE_CELL: c]\n[TABLE_ROW:1]\n[TABLE_CELL: 1]\n[TABLE_CELL: 2]\n[TABLE_END]\n" := by
  constructor
  · set_option maxRecDepth 8192 in with_unfolding_all decide
  · set_option maxRecDepth 8192 in with_unfolding_all decide

/-- C1 (amended): the invariant cannot be promised for the final stream,
because native-table marker text is part of the string later fed
through mark_formulas and detect_table_structure, which can rewrap a
cell line containing a math character inside the span; it does hold for
the output of the Native Table Formatter itself: format_table_as_markers
always produces one well-formed TABLE_START span whose interior lines
are all row or cell markers, with no formula marker anywhere. -/
theorem C1_theorem (t : TableData) :
    claimMarkerInvariant (format_table_lines t) = true := by
  unfold claimMarkerInvariant format_table_lines
  rw [Bool.and_eq_true]
  have hshape := format_interior_shape t.rows 0
  constructor
  · have hstart : spanScan false
        ("[TABLE_START]" :: (((t.rows.enumFrom 0).map
            (fun p => tableRowLines p.1 p.2)).flatten ++ ["[TABLE_END]"]))
        = spanScan true (((t.rows.enumFrom 0).map
            (fun p => tableRowLines p.1 p.2)).flatten ++ ["[TABLE_END]"]) := by
      simp [spanScan]
    rw [List.enum]
    rw [hstart]
    exact spanScan_inside _ (fun l hl => (hshape l hl).1)
  · rw [List.all_eq_true]
    intro x hx
    rw [List.enum] at hx
    simp only [List.mem_cons, List.mem_append, List.mem_singleton] at hx
    rcases hx with h1 | h2 | h3 | h4
    · subst h1; decide
    · have hf := (hshape x h2).2
      unfold formulaLineTableFree
      rw [hf]
      rfl
    · subst h3; decide
    · cases h4

theorem toList_ne_nil (l : String) (h : l ≠ "") : l.toList ≠ [] := by
  intro hnil
  apply h
  rw [← mk_toList l, hnil]

theorem render_foldl_toList (ls : List (List String)) :
    ∀ acc : String,
    (ls.foldl (fun acc spans => acc ++ String.join spans ++ "\n") acc).toList
      = acc.toList ++ lineBlock (ls.map (fun spans => (String.join spans).toList)) := by
  induction ls with
  | nil => intro acc; simp [lineBlock]
  | cons spans rest ih =>
    intro acc
    simp only [List.foldl_cons, List.map_cons, lineBlock]
    rw [ih, toList_append, toList_append]
    simp [List.append_assoc]

theorem render_text_block_toList (ls : List (List String)) :
    (render_text_block ls).toList
      = lineBlock (ls.map (fun spans => (String.join spans).toList)) := by
  unfold render_text_block
  rw [render_foldl_toList]
  rfl

theorem countNlNl_cons_ne (c : Char) (xs : List Char) (hc : c ≠ '\n') :
    countNlNl (c :: xs) = countNlNl xs := by
  cases xs with
  | nil => rfl
  | cons d t => simp [countNlNl, hc]

theorem countNlNl_no_nl (l : List Char) (h : '\n' ∉ l) (r : List Char) :
    countNlNl (l ++ r) = countNlNl r := by
  induction l with
  | nil => rfl
  | cons c l' ih =>
    have hc : c ≠ '\n' := by
      intro he
      exact h (he ▸ List.mem_cons_self c l')
    rw [List.cons_append, countNlNl_cons_ne c _ hc]
    exact ih (fun hm => h (List.mem_cons_of_mem c hm))

theorem countNlNl_pair (r : List Char) : countNlNl ('\n' :: '\n' :: r) = countNlNl r + 1 := by
  simp [countNlNl]

theorem countNlNl_lineBlock_append (lines : List (List Char))
    (h : ∀ l ∈ lines, l ≠ [] ∧ '\n' ∉ l) (hne : lines ≠ []) (r : List Char) :
    countNlNl (lineBlock lines ++ r) = countNlNl ('\n' :: r) := by
  induction lines with
  | nil => exact absurd rfl hne
  | cons x xs ih =>
    obtain ⟨hx, hnl⟩ := h x (by simp)
    have heq : lineBlock (x :: xs) ++ r = x ++ ('\n' :: (lineBlock xs ++ r)) := by
      simp [lineBlock, List.append_assoc]
    rw [heq, countNlNl_no_nl x hnl]
    cases xs with
    | nil => rfl
    | cons y ys =>
      obtain ⟨hy, hynl⟩ := h y (by simp)
      obtain ⟨c, y2, hcy⟩ := List.exists_cons_of_ne_nil hy
      have hc : c ≠ '\n' := by
        intro he
        apply hynl
        rw [hcy, he]
        exact List.mem_cons_self _ _
      have hshape : lineBlock (y :: ys) ++ r = c :: (y2 ++ '\n' :: (lineBlock ys ++ r)) := by
        rw [hcy]
        simp [lineBlock, List.append_assoc]
      have hstep : countNlNl ('\n' :: (lineBlock (y :: ys) ++ r))
          = countNlNl (lineBlock (y :: ys) ++ r) := by
        rw [hshape]
        simp [countNlNl, hc]
      rw [hstep]
      exact ih (fun l hl => h l (List.mem_cons_of_mem x hl)) (by simp)

theorem countNlNl_lineBlock (lines : List (List Char))
    (h : ∀ l ∈ lines, l ≠ [] ∧ '\n' ∉ l) :
    countNlNl (lineBlock lines) = 0 := by
  cases lines with
  | nil => rfl
  | cons x xs =>
    have hh := countNlNl_lineBlock_append (x :: xs) h (by simp) []
    rw [List.append_nil] at hh
    rw [hh]
    rfl

theorem splitNl_line_append (x : List Char) (hx : '\n' ∉ x) (t : List Char) :
    splitNl (x ++ '\n' :: t) = x :: splitNl t := by
  induction x with
  | nil => simp [splitNl]
  | cons c x2 ih =>
    have hc : c ≠ '\n' := fun he => hx (he ▸ List.mem_cons_self c x2)
    have ih2 := ih (fun hm => hx (List.mem_cons_of_mem c hm))
    simp [splitNl, hc, ih2, consHeadLine]

theorem splitNl_lineBlock_append (lines : List (List Char))
    (h : ∀ l ∈ lines, '\n' ∉ l) (r : List Char) :
    splitNl (lineBlock lines ++ r) = lines ++ splitNl r := by
  induction lines with
  | nil => rfl
  | cons x xs ih =>
    have heq : lineBlock (x :: xs) ++ r = x ++ '\n' :: (lineBlock xs ++ r) := by
      simp [lineBlock, List.append_assoc]
    rw [heq, splitNl_line_append x (h x (by simp)),
      ih (fun l hl => h l (List.mem_cons_of_mem x hl))]
    rfl

theorem lineBlock_reverse (lines : List (List Char))
    (h : ∀ l ∈ lines, l ≠ [] ∧ '\n' ∉ l) (hne : lines ≠ []) :
    ∃ c rest, (lineBlock lines).reverse = '\n' :: c :: rest ∧ c ≠ '\n' := by
  induction lines with
  | nil => exact absurd rfl hne
  | cons x xs ih =>
    cases xs with
    | nil =>
      obtain ⟨hx, hnl⟩ := h x (by simp)
      obtain ⟨c, r2, hcr⟩ := List.exists_cons_of_ne_nil
        (fun hrev => hx (List.reverse_eq_nil_iff.mp hrev))
      refine ⟨c, r2, ?_, ?_⟩
      · have : lineBlock [x] = x ++ ['\n'] := by simp [lineBlock]
        rw [this, List.reverse_append, hcr]
        rfl
      · intro he
        apply hnl
        have : c ∈ x.reverse := by rw [hcr]; exact List.mem_cons_self _ _
        rw [List.mem_reverse] at this
        rwa [he] at this
    | cons y ys =>
      obtain ⟨c, rest, hrev, hc⟩ :=
        ih (fun l hl => h l (List.mem_cons_of_mem x hl)) (by simp)
      refine ⟨c, rest ++ '\n' :: x.reverse, ?_, hc⟩
      have hshape : lineBlock (x :: y :: ys) = x ++ '\n' :: lineBlock (y :: ys) := rfl
      rw [hshape, List.reverse_append, List.reverse_cons, hrev]
      simp [List.append_assoc]

/-- C8: for a document of two pages, each holding exactly one text
paragraph (nonempty prose lines free of newlines and of the formula and
table classifications) and nothing else, the output text is the first
paragraph's newline-terminated lines, one double-newline page separator,
then the second paragraph's newline-terminated lines: it contains
exactly one non-overlapping occurrence of the double newline and does
not end with one. -/
theorem C8_theorem (o : DocOracle) (outputDir : String) (L1 L2 : List String)
    (h1 : L1 ≠ []) (h2 : L2 ≠ [])
    (hg : ∀ l ∈ L1 ++ L2, l ≠ "" ∧ '\n' ∉ l.toList ∧ is_formula_line l = false ∧
      is_table_cell_candidate (pyStrip l) = false ∧
      looks_like_multi_col_row (pyStrip l) = false) :
    (extract_pdf_with_layout o outputDir [exTextPage L1, exTextPage L2]).text_with_images.toList
      = lineBlock (L1.map String.toList) ++ '\n' :: '\n' :: lineBlock (L2.map String.toList) ∧
    countNlNl (extract_pdf_with_layout o outputDir
      [exTextPage L1, exTextPage L2]).text_with_images.toList = 1 ∧
    endsWithStr (extract_pdf_with_layout o outputDir
      [exTextPage L1, exTextPage L2]).text_with_images "\n\n" = false := by
  have hcl1 : ∀ l ∈ L1.map String.toList, l ≠ [] ∧ '\n' ∉ l := by
    intro l hl
    obtain ⟨s, hs, hrfl⟩ := List.mem_map.mp hl
    obtain ⟨hne, hnl, _⟩ := hg s (List.mem_append.mpr (Or.inl hs))
    exact hrfl ▸ ⟨toList_ne_nil s hne, hnl⟩
  have hcl2 : ∀ l ∈ L2.map String.toList, l ≠ [] ∧ '\n' ∉ l := by
    intro l hl
    obtain ⟨s, hs, hrfl⟩ := List.mem_map.mp hl
    obtain ⟨hne, hnl, _⟩ := hg s (List.mem_append.mpr (Or.inr hs))
    exact hrfl ▸ ⟨toList_ne_nil s hne, hnl⟩
  have hraw : (processDoc o outputDir [exTextPage L1, exTextPage L2]).text
      = "" ++ render_text_block (L1.map fun l => [l]) ++ "\n\n"
        ++ render_text_block (L2.map fun l => [l]) := rfl
  have hm1 : (L1.map fun l => [l]).map (fun spans => (String.join spans).toList)
      = L1.map String.toList := by
    rw [List.map_map]
    exact List.map_congr_left (fun a _ => rfl)
  have hm2 : (L2.map fun l => [l]).map (fun spans => (String.join spans).toList)
      = L2.map String.toList := by
    rw [List.map_map]
    exact List.map_congr_left (fun a _ => rfl)
  have hrawl : (processDoc o outputDir [exTextPage L1, exTextPage L2]).text.toList
      = lineBlock (L1.map String.toList) ++ '\n' :: '\n' :: lineBlock (L2.map String.toList) := by
    rw [hraw, toList_append, toList_append, toList_append,
      render_text_block_toList, render_text_block_toList, hm1, hm2]
    simp [List.append_assoc]
  have hsplit : splitNl ((processDoc o outputDir [exTextPage L1, exTextPage L2]).text.toList)
      = L1.map String.toList ++ [] :: [] :: (L2.map String.toList ++ [[]]) := by
    rw [hrawl, splitNl_lineBlock_append (L1.map String.toList)
      (fun l hl => (hcl1 l hl).2)]
    have hsp2 : splitNl ('\n' :: '\n' :: lineBlock (L2.map String.toList))
        = [] :: [] :: splitNl (lineBlock (L2.map String.toList)) := by
      simp [splitNl]
    have hsp3 : splitNl (lineBlock (L2.map String.toList)) = L2.map String.toList ++ [[]] := by
      have hh := splitNl_lineBlock_append (L2.map String.toList)
        (fun l hl => (hcl2 l hl).2) []
      rw [List.append_nil] at hh
      rw [hh]
      rfl
    rw [hsp2, hsp3]
  have hlines : splitLines ((processDoc o outputDir [exTextPage L1, exTextPage L2]).text)
      = L1 ++ "" :: "" :: (L2 ++ [""]) := by
    unfold splitLines
    rw [hsplit]
    have hml1 : (L1.map String.toList).map (fun cs => (⟨cs⟩ : String)) = L1 := by
      rw [List.map_map]
      have : ∀ a ∈ L1, ((fun cs => (⟨cs⟩ : String)) ∘ String.toList) a = id a :=
        fun a _ => mk_toList a
      rw [List.map_congr_left this, List.map_id]
    have hml2 : (L2.map String.toList).map (fun cs => (⟨cs⟩ : String)) = L2 := by
      rw [List.map_map]
      have : ∀ a ∈ L2, ((fun cs => (⟨cs⟩ : String)) ∘ String.toList) a = id a :=
        fun a _ => mk_toList a
      rw [List.map_congr_left this, List.map_id]
    simp only [List.map_append, List.map_cons, hml1, hml2]
    rfl
  have hall1 : ∀ l ∈ splitLines ((processDoc o outputDir
      [exTextPage L1, exTextPage L2]).text), is_formula_line l = false := by
    rw [hlines]
    intro l hl
    simp only [List.mem_append, List.mem_cons, List.mem_singleton] at hl
    rcases hl with hA | hB | hC | hD | hE | hF
    · exact (hg l (List.mem_append.mpr (Or.inl hA))).2.2.1
    · subst hB; decide
    · subst hC; decide
    · exact (hg l (List.mem_append.mpr (Or.inr hD))).2.2.1
    · subst hE; decide
    · cases hF
  have hall2 : ∀ l ∈ splitLines ((processDoc o outputDir
      [exTextPage L1, exTextPage L2]).text),
      is_table_cell_candidate (pyStrip l) = false ∧
      looks_like_multi_col_row (pyStrip l) = false := by
    rw [hlines]
    intro l hl
    simp only [List.mem_append, List.mem_cons, List.mem_singleton] at hl
    rcases hl with hA | hB | hC | hD | hE | hF
    · exact ⟨(hg l (List.mem_append.mpr (Or.inl hA))).2.2.2.1,
        (hg l (List.mem_append.mpr (Or.inl hA))).2.2.2.2⟩
    · subst hB; exact ⟨by decide, by decide⟩
    · subst hC; exact ⟨by decide, by decide⟩
    · exact ⟨(hg l (List.mem_append.mpr (Or.inr hD))).2.2.2.1,
        (hg l (List.mem_append.mpr (Or.inr hD))).2.2.2.2⟩
    · subst hE; exact ⟨by decide, by decide⟩
    · cases hF
  have hT : (extract_pdf_with_layout o outputDir
      [exTextPage L1, exTextPage L2]).text_with_images
      = (processDoc o outputDir [exTextPage L1, exTextPage L2]).text := by
    show detect_table_structure (mark_formulas
      ((processDoc o outputDir [exTextPage L1, exTextPage L2]).text)) = _
    have hmark : mark_formulas ((processDoc o outputDir
        [exTextPage L1, exTextPage L2]).text)
        = (processDoc o outputDir [exTextPage L1, exTextPage L2]).text := by
      unfold mark_formulas
      rw [markFormulasAux_id _ hall1, joinLinesStr_splitLines]
    rw [hmark]
    unfold detect_table_structure
    rw [detectAux_id _ hall2, joinLinesStr_splitLines]
  have hne2 : L2.map String.toList ≠ [] := by
    intro hmap
    exact h2 (List.map_eq_nil_iff.mp hmap)
  refine ⟨?_, ?_, ?_⟩
  · rw [hT]
    exact hrawl
  · rw [hT, hrawl]
    rw [countNlNl_lineBlock_append (L1.map String.toList) hcl1
      (fun hmap => h1 (List.map_eq_nil_iff.mp hmap)), countNlNl_pair]
    obtain ⟨y, ys, hy⟩ := List.exists_cons_of_ne_nil hne2
    obtain ⟨hyne, hynl⟩ := hcl2 y (by rw [hy]; exact List.mem_cons_self _ _)
    obtain ⟨c, y2, hcy⟩ := List.exists_cons_of_ne_nil hyne
    have hc : c ≠ '\n' := by
      intro he
      apply hynl
      rw [hcy, he]
      exact List.mem_cons_self _ _
    have hshape : lineBlock (L2.map String.toList)
        = c :: (y2 ++ '\n' :: lineBlock ys) := by
      rw [hy, hcy]
      rfl
    have hstep : countNlNl ('\n' :: lineBlock (L2.map String.toList))
        = countNlNl (lineBlock (L2.map String.toList)) := by
      rw [hshape]
      simp [countNlNl, hc]
    rw [hstep, countNlNl_lineBlock (L2.map String.toList) hcl2]
  · rw [hT]
    unfold endsWithStr
    obtain ⟨c, rest, hrev, hc⟩ := lineBlock_reverse (L2.map String.toList) hcl2 hne2
    have hTrev : ((processDoc o outputDir
        [exTextPage L1, exTextPage L2]).text.toList).reverse
        = '\n' :: c :: (rest ++ '\n' :: '\n'
            :: (lineBlock (L1.map String.toList)).reverse) := by
      rw [hrawl, List.reverse_append, List.reverse_cons, List.reverse_cons, hrev]
      simp [List.append_assoc]
    have hc2 : ¬ ('\n' = c) := fun he => hc he.symm
    unfold List.isSuffixOf
    rw [hTrev]
    simp [List.isPrefixOf, hc2]

/-- C8 witness: two concrete one-paragraph pages produce exactly one
double-newline separator between the pages and none at the end. -/
theorem C8_witness :
    (extract_pdf_with_layout exOracleOk "out"
      [exTextPage ["This is line one."], exTextPage ["Second page text."]]).text_with_images.toList
      = lineBlock (["This is line one."].map String.toList) ++ '\n' :: '\n'
        :: lineBlock (["Second page text."].map String.toList) ∧
    countNlNl (extract_pdf_with_layout exOracleOk "out"
      [exTextPage ["This is line one."], exTextPage ["Second page text."]]).text_with_images.toList
      = 1 ∧
    endsWithStr (extract_pdf_with_layout exOracleOk "out"
      [exTextPage ["This is line one."], exTextPage ["Second page text."]]).text_with_images
      "\n\n" = false :=
  C8_theorem exOracleOk "out" ["This is line one."] ["Second page text."]
    (by decide) (by decide) (by decide)

end ExtractPdf
